import Mathlib

/-!
Shallow embedding of the container-scheduling benchmark core
(repository `Container-Scheduler-Orchestration-Benchmark`):

* `Container`, `Node` with their resource accounting
  (`pkg/container/container.go`, `pkg/node/node.go`);
* the three scheduling policies BinPack, Spread
  (`pkg/scheduler/binpack.go`, `pkg/scheduler/spread.go`) and the
  Adaptive policy (`pkg/scheduler/adaptive.go`);
* the metrics collector (`pkg/metrics/metrics.go`);
* the workload generator (`pkg/workLoad`) and the benchmark reaper
  (`pkg/benchmark/benchmark.go`).

Modelling conventions:

* Go `float64` is modelled by exact rational arithmetic (`ℚ`).
* `math.Sqrt` (used only for the load-variance standard deviation) is an
  explicit function parameter `sqrt : ℚ → ℚ`; every theorem involving it
  holds for an arbitrary interpretation.
* Wall-clock readings (`time.Now`, `time.Since`) are explicit parameters:
  node/container ids generated from the nanosecond clock become explicit
  `String` parameters, elapsed minutes (adaptive phase) and node uptime
  hours become explicit `ℚ` parameters.
* Go maps keyed by strings are modelled as functions `String → Option β`
  with pointwise overwrite.
* Methods returning `bool` while mutating the receiver are modelled as
  functions returning `Bool × State`.
-/

/-- `pkg/container/container.go`: a container placement request.  The
`creationTime` / `startupDuration` clock fields are omitted: no operation
modelled here reads them.  The id (generated from the nanosecond clock by
`NewContainer`) is an explicit field. -/
structure Container where
  id : String
  name : String
  image : String
  cpuRequest : ℚ
  memoryRequest : ℚ
  networkRequest : ℚ
  ioRequest : ℚ
  containerType : String
  priority : Int
deriving DecidableEq, Repr

/-- `Container.CPUIntensive`: `cpuRequest > 2.0`. -/
def Container.CPUIntensive (c : Container) : Bool := decide (c.cpuRequest > 2)

/-- `Container.MemoryIntensive`: `memoryRequest > 2048`. -/
def Container.MemoryIntensive (c : Container) : Bool := decide (c.memoryRequest > 2048)

/-- `Container.NetworkIntensive`: `networkRequest > 500`. -/
def Container.NetworkIntensive (c : Container) : Bool := decide (c.networkRequest > 500)

/-- `Container.IOIntensive`: `ioRequest > 5000`. -/
def Container.IOIntensive (c : Container) : Bool := decide (c.ioRequest > 5000)

/-- `pkg/node/node.go`: a node.  `creationTime` is omitted (uptime is
passed explicitly where needed); the Go fields `totalIO`/`usedIO` are
spelled `totalIo`/`usedIo` here. -/
structure Node where
  id : String
  name : String
  totalCPU : ℚ
  totalMemory : ℚ
  totalNetwork : ℚ
  totalIo : ℚ
  usedCPU : ℚ
  usedMemory : ℚ
  usedNetwork : ℚ
  usedIo : ℚ
  containers : List Container
  loadHistory : List ℚ
  healthScore : ℚ
deriving DecidableEq, Repr

/-- `NewNode` (node.go line 28); the id, generated from the nanosecond
clock in Go, is an explicit parameter. -/
def NewNode (nid nodeName : String) (cpu memory network ioCap : ℚ) : Node where
  id := nid
  name := nodeName
  totalCPU := cpu
  totalMemory := memory
  totalNetwork := network
  totalIo := ioCap
  usedCPU := 0
  usedMemory := 0
  usedNetwork := 0
  usedIo := 0
  containers := []
  loadHistory := []
  healthScore := 1

def Node.AvailableCPU (n : Node) : ℚ := n.totalCPU - n.usedCPU

def Node.AvailableMemory (n : Node) : ℚ := n.totalMemory - n.usedMemory

def Node.AvailableNetwork (n : Node) : ℚ := n.totalNetwork - n.usedNetwork

def Node.AvailableIo (n : Node) : ℚ := n.totalIo - n.usedIo

/-- `Node.Utilization` (node.go line 87). -/
def Node.Utilization (n : Node) : ℚ :=
  (n.usedCPU / n.totalCPU + n.usedMemory / n.totalMemory
    + n.usedNetwork / n.totalNetwork + n.usedIo / n.totalIo) / 4

/-- `Node.CanFit` (node.go line 96). -/
def Node.CanFit (n : Node) (c : Container) : Bool :=
  decide (c.cpuRequest ≤ n.AvailableCPU) &&
  decide (c.memoryRequest ≤ n.AvailableMemory) &&
  decide (c.networkRequest ≤ n.AvailableNetwork) &&
  decide (c.ioRequest ≤ n.AvailableIo)

/-- The load-history append-and-trim step shared by add and remove
(node.go lines 115-119 and 136-140): append the current utilization,
then drop the oldest sample if the length exceeds 10. -/
def pushLoadSample (history : List ℚ) (sample : ℚ) : List ℚ :=
  let lh := history ++ [sample]
  if lh.length > 10 then lh.tail else lh

/-- `Node.AddContainer` (node.go line 103), returning the Go `bool`
together with the post-state of the mutated receiver. -/
def Node.AddContainer (n : Node) (c : Container) : Bool × Node :=
  if n.CanFit c then
    let n1 : Node := { n with
      usedCPU := n.usedCPU + c.cpuRequest
      usedMemory := n.usedMemory + c.memoryRequest
      usedNetwork := n.usedNetwork + c.networkRequest
      usedIo := n.usedIo + c.ioRequest
      containers := n.containers ++ [c] }
    (true, { n1 with loadHistory := pushLoadSample n1.loadHistory n1.Utilization })
  else
    (false, n)

/-- The search-and-delete loop of `Node.RemoveContainer` (node.go lines
125-133): locate the first container with the given id and return it
together with the list with that one occurrence deleted. -/
def removeFirstContainer (cid : String) : List Container → Option (Container × List Container)
  | [] => none
  | c :: rest =>
    if c.id = cid then some (c, rest)
    else
      match removeFirstContainer cid rest with
      | none => none
      | some (f, l) => some (f, c :: l)

/-- `Node.RemoveContainer` (node.go line 124). -/
def Node.RemoveContainer (n : Node) (cid : String) : Bool × Node :=
  match removeFirstContainer cid n.containers with
  | none => (false, n)
  | some (c, rest) =>
    let n1 : Node := { n with
      usedCPU := n.usedCPU - c.cpuRequest
      usedMemory := n.usedMemory - c.memoryRequest
      usedNetwork := n.usedNetwork - c.networkRequest
      usedIo := n.usedIo - c.ioRequest
      containers := rest }
    (true, { n1 with loadHistory := pushLoadSample n1.loadHistory n1.Utilization })

/-- `Node.LoadVariance` (node.go line 161): population standard deviation
of the load history; `sqrt` interprets `math.Sqrt`. -/
def Node.LoadVariance (sqrt : ℚ → ℚ) (n : Node) : ℚ :=
  if n.loadHistory.length < 2 then 0
  else
    let mean := n.loadHistory.sum / n.loadHistory.length
    let variance := (n.loadHistory.map (fun load => (load - mean) * (load - mean))).sum
        / n.loadHistory.length
    sqrt variance

/-- One step of the node mutation alphabet for invariant claims: an
`AddContainer` call or a `RemoveContainer` call. -/
inductive NodeOp where
  | add : Container → NodeOp
  | remove : String → NodeOp
deriving DecidableEq, Repr

/-- Apply one operation, keeping only the post-state. -/
def applyOp (n : Node) (op : NodeOp) : Node :=
  match op with
  | .add c => (n.AddContainer c).2
  | .remove cid => (n.RemoveContainer cid).2

/-- Apply a call sequence left to right. -/
def applyOps (n : Node) (ops : List NodeOp) : Node := ops.foldl applyOp n

/-- Sum of one resource request over a container list. -/
def sumBy (f : Container → ℚ) (l : List Container) : ℚ := (l.map f).sum

/-- All four requests of a container are nonnegative. -/
def Container.Nonneg (c : Container) : Prop :=
  0 ≤ c.cpuRequest ∧ 0 ≤ c.memoryRequest ∧ 0 ≤ c.networkRequest ∧ 0 ≤ c.ioRequest

/-- Every container added by the sequence has nonnegative requests. -/
def OpsNonneg (ops : List NodeOp) : Prop :=
  ∀ op ∈ ops, match op with
    | NodeOp.add c => c.Nonneg
    | NodeOp.remove _ => True

/-- The accounting invariant of node state claimed by the spec: per-resource
usage equals the sum of requests of the placed containers, every placed
container has nonnegative requests, and usage stays within capacity. -/
def NodeAccounted (n : Node) : Prop :=
  (n.usedCPU = sumBy Container.cpuRequest n.containers
    ∧ n.usedMemory = sumBy Container.memoryRequest n.containers
    ∧ n.usedNetwork = sumBy Container.networkRequest n.containers
    ∧ n.usedIo = sumBy Container.ioRequest n.containers)
  ∧ (∀ c ∈ n.containers, c.Nonneg)
  ∧ (n.usedCPU ≤ n.totalCPU ∧ n.usedMemory ≤ n.totalMemory
    ∧ n.usedNetwork ≤ n.totalNetwork ∧ n.usedIo ≤ n.totalIo)

lemma sumBy_nonneg (f : Container → ℚ) (l : List Container)
    (h : ∀ c ∈ l, 0 ≤ f c) : 0 ≤ sumBy f l := by
  induction l with
  | nil => simp [sumBy]
  | cons c rest ih =>
    simp only [sumBy, List.map_cons, List.sum_cons]
    have h1 := h c (by simp)
    have h2 := ih (fun x hx => h x (by simp [hx]))
    positivity

lemma sumBy_append_single (f : Container → ℚ) (l : List Container) (c : Container) :
    sumBy f (l ++ [c]) = sumBy f l + f c := by
  simp [sumBy]

lemma removeFirstContainer_spec (cid : String) (l : List Container)
    (c : Container) (rest : List Container)
    (h : removeFirstContainer cid l = some (c, rest)) :
    (∀ f : Container → ℚ, sumBy f rest = sumBy f l - f c)
      ∧ (∀ x ∈ rest, x ∈ l) ∧ c ∈ l ∧ rest.length + 1 = l.length := by
  induction l generalizing rest with
  | nil => simp [removeFirstContainer] at h
  | cons d ds ih =>
    by_cases hd : d.id = cid
    · simp only [removeFirstContainer, if_pos hd, Option.some.injEq,
        Prod.mk.injEq] at h
      obtain ⟨hc, hrest⟩ := h
      subst hc; subst hrest
      refine ⟨fun f => ?_, fun x hx => by simp [hx], by simp, by simp⟩
      simp only [sumBy, List.map_cons, List.sum_cons]
      ring
    · simp only [removeFirstContainer, if_neg hd] at h
      cases hrec : removeFirstContainer cid ds with
      | none => rw [hrec] at h; simp at h
      | some p =>
        obtain ⟨c', rest'⟩ := p
        rw [hrec] at h
        simp only [Option.some.injEq, Prod.mk.injEq] at h
        obtain ⟨hc, hrest⟩ := h
        subst hc
        obtain ⟨hsum, hsub, hmem, hlen⟩ := ih rest' hrec
        subst hrest
        refine ⟨fun f => ?_, fun x hx => ?_, by simp [hmem], by simp [← hlen]⟩
        · simp only [sumBy, List.map_cons, List.sum_cons] at *
          rw [hsum f]; ring
        · rcases List.mem_cons.mp hx with h1 | h1
          · simp [h1]
          · simp [hsub x h1]

lemma removeFirstContainer_none (cid : String) (l : List Container)
    (h : ∀ c ∈ l, c.id ≠ cid) : removeFirstContainer cid l = none := by
  induction l with
  | nil => rfl
  | cons d ds ih =>
    have hd : d.id ≠ cid := h d (by simp)
    simp only [removeFirstContainer, if_neg hd]
    rw [ih (fun c hc => h c (by simp [hc]))]

lemma NodeAccounted_add (n : Node) (c : Container) (hn : NodeAccounted n)
    (hc : c.Nonneg) : NodeAccounted (n.AddContainer c).2 := by
  unfold Node.AddContainer
  by_cases hfit : n.CanFit c
  · obtain ⟨⟨s1, s2, s3, s4⟩, hall, _⟩ := hn
    have hfit' := hfit
    simp only [Node.CanFit, Bool.and_eq_true, decide_eq_true_eq,
      Node.AvailableCPU, Node.AvailableMemory, Node.AvailableNetwork,
      Node.AvailableIo] at hfit'
    obtain ⟨⟨⟨f1, f2⟩, f3⟩, f4⟩ := hfit'
    simp only [if_pos hfit]
    refine ⟨⟨?_, ?_, ?_, ?_⟩, ?_, ?_, ?_, ?_, ?_⟩ <;>
      simp [sumBy_append_single, s1, s2, s3, s4]
    · intro x hx
      rcases hx with hx | hx
      · exact hall x hx
      · simpa [hx] using hc
    · linarith
    · linarith
    · linarith
    · linarith
  · simpa [if_neg hfit] using hn

lemma NodeAccounted_remove (n : Node) (cid : String) (hn : NodeAccounted n) :
    NodeAccounted (n.RemoveContainer cid).2 := by
  unfold Node.RemoveContainer
  cases hrm : removeFirstContainer cid n.containers with
  | none => simpa using hn
  | some p =>
    obtain ⟨c, rest⟩ := p
    obtain ⟨hsum, hsub, hmem, _⟩ := removeFirstContainer_spec cid n.containers c rest hrm
    obtain ⟨⟨s1, s2, s3, s4⟩, hall, b1, b2, b3, b4⟩ := hn
    have hcnn := hall c hmem
    obtain ⟨c1, c2, c3, c4⟩ := hcnn
    refine ⟨⟨?_, ?_, ?_, ?_⟩, ?_, ?_, ?_, ?_, ?_⟩ <;>
      simp [hsum, s1, s2, s3, s4]
    · exact fun x hx => hall x (hsub x hx)
    · linarith
    · linarith
    · linarith
    · linarith

lemma NodeAccounted_applyOps (n : Node) (ops : List NodeOp)
    (hn : NodeAccounted n) (hops : OpsNonneg ops) :
    NodeAccounted (applyOps n ops) := by
  induction ops generalizing n with
  | nil => simpa [applyOps] using hn
  | cons op rest ih =>
    have hstep : NodeAccounted (applyOp n op) := by
      cases op with
      | add c =>
        exact NodeAccounted_add n c hn (hops (.add c) (by simp))
      | remove cid => exact NodeAccounted_remove n cid hn
    have hrest : OpsNonneg rest := fun op' h' => hops op' (by simp [h'])
    simpa [applyOps] using ih (applyOp n op) hstep hrest

/-- C1: for every node and every sequence of `AddContainer`/`RemoveContainer`
calls starting from a freshly constructed node (capacities positive, all
added containers with nonnegative requests), after each call each
per-resource usage equals the sum of that resource's requests over the
currently placed containers and lies between 0 and the capacity.  (The
conclusion is stated for an arbitrary call sequence, hence it holds after
every prefix of any sequence of calls.) -/
theorem node_accounting_invariant (nid nodeName : String)
    (cpu memory network ioCap : ℚ) (ops : List NodeOp)
    (hcpu : 0 < cpu) (hmemory : 0 < memory) (hnetwork : 0 < network)
    (hcap : 0 < ioCap) (hops : OpsNonneg ops) :
    let n := applyOps (NewNode nid nodeName cpu memory network ioCap) ops
    (n.usedCPU = sumBy Container.cpuRequest n.containers
      ∧ n.usedMemory = sumBy Container.memoryRequest n.containers
      ∧ n.usedNetwork = sumBy Container.networkRequest n.containers
      ∧ n.usedIo = sumBy Container.ioRequest n.containers)
    ∧ (0 ≤ n.usedCPU ∧ n.usedCPU ≤ n.totalCPU)
    ∧ (0 ≤ n.usedMemory ∧ n.usedMemory ≤ n.totalMemory)
    ∧ (0 ≤ n.usedNetwork ∧ n.usedNetwork ≤ n.totalNetwork)
    ∧ (0 ≤ n.usedIo ∧ n.usedIo ≤ n.totalIo) := by
  intro n
  have hfresh : NodeAccounted (NewNode nid nodeName cpu memory network ioCap) := by
    refine ⟨⟨rfl, rfl, rfl, rfl⟩, ?_, ?_⟩
    · intro c hc; simp [NewNode] at hc
    · simp only [NewNode]
      exact ⟨le_of_lt hcpu, le_of_lt hmemory, le_of_lt hnetwork, le_of_lt hcap⟩
  have hinv : NodeAccounted n := NodeAccounted_applyOps _ ops hfresh hops
  obtain ⟨⟨s1, s2, s3, s4⟩, hall, b1, b2, b3, b4⟩ := hinv
  have n1 : 0 ≤ n.usedCPU := s1 ▸ sumBy_nonneg _ _ (fun c hc => (hall c hc).1)
  have n2 : 0 ≤ n.usedMemory := s2 ▸ sumBy_nonneg _ _ (fun c hc => (hall c hc).2.1)
  have n3 : 0 ≤ n.usedNetwork := s3 ▸ sumBy_nonneg _ _ (fun c hc => (hall c hc).2.2.1)
  have n4 : 0 ≤ n.usedIo := s4 ▸ sumBy_nonneg _ _ (fun c hc => (hall c hc).2.2.2)
  exact ⟨⟨s1, s2, s3, s4⟩, ⟨n1, b1⟩, ⟨n2, b2⟩, ⟨n3, b3⟩, ⟨n4, b4⟩⟩

/-- Concrete container fixture: a small web container. -/
def cFixA : Container :=
  { id := "cA", name := "web-a", image := "img-a", cpuRequest := 1,
    memoryRequest := 512, networkRequest := 50, ioRequest := 200,
    containerType := "web", priority := 0 }

/-- Concrete container fixture: a cpu-intensive batch container. -/
def cFixB : Container :=
  { id := "cB", name := "batch-b", image := "img-b", cpuRequest := 3,
    memoryRequest := 1024, networkRequest := 100, ioRequest := 500,
    containerType := "batch", priority := 0 }

theorem node_accounting_invariant_witness :
    let n := applyOps (NewNode "n1" "medium-node-0" 4 8192 2000 10000)
      [NodeOp.add cFixA, NodeOp.add cFixB, NodeOp.remove "cA"]
    (n.usedCPU = sumBy Container.cpuRequest n.containers
      ∧ n.usedMemory = sumBy Container.memoryRequest n.containers
      ∧ n.usedNetwork = sumBy Container.networkRequest n.containers
      ∧ n.usedIo = sumBy Container.ioRequest n.containers)
    ∧ (0 ≤ n.usedCPU ∧ n.usedCPU ≤ n.totalCPU)
    ∧ (0 ≤ n.usedMemory ∧ n.usedMemory ≤ n.totalMemory)
    ∧ (0 ≤ n.usedNetwork ∧ n.usedNetwork ≤ n.totalNetwork)
    ∧ (0 ≤ n.usedIo ∧ n.usedIo ≤ n.totalIo) :=
  node_accounting_invariant "n1" "medium-node-0" 4 8192 2000 10000
    [NodeOp.add cFixA, NodeOp.add cFixB, NodeOp.remove "cA"]
    (by norm_num) (by norm_num) (by norm_num) (by norm_num)
    (by
      intro op hop
      simp only [List.mem_cons, List.not_mem_nil, or_false] at hop
      rcases hop with h | h | h <;> subst h <;>
        norm_num [Container.Nonneg, cFixA, cFixB])

/-- C4: a rejected `AddContainer` leaves the node state identical, and
`RemoveContainer` with an id carried by no placed container returns false
and leaves the node state identical. -/
theorem failed_mutations_leave_node_unchanged :
    (∀ (n : Node) (c : Container),
        (n.AddContainer c).1 = false → (n.AddContainer c).2 = n)
    ∧ (∀ (n : Node) (cid : String), (∀ c ∈ n.containers, c.id ≠ cid) →
        n.RemoveContainer cid = (false, n)) := by
  constructor
  · intro n c hfail
    unfold Node.AddContainer at *
    by_cases hfit : n.CanFit c
    · simp [if_pos hfit] at hfail
    · simp [if_neg hfit]
  · intro n cid hno
    unfold Node.RemoveContainer
    rw [removeFirstContainer_none cid n.containers hno]

theorem failed_mutations_leave_node_unchanged_witness :
    ((NewNode "n2" "small-node-0" 2 4096 1000 5000).AddContainer cFixB).2
        = NewNode "n2" "small-node-0" 2 4096 1000 5000
    ∧ (NewNode "n2" "small-node-0" 2 4096 1000 5000).RemoveContainer "ghost"
        = (false, NewNode "n2" "small-node-0" 2 4096 1000 5000) :=
  ⟨failed_mutations_leave_node_unchanged.1 _ cFixB
      (by norm_num [Node.AddContainer, Node.CanFit, Node.AvailableCPU,
        Node.AvailableMemory, Node.AvailableNetwork, Node.AvailableIo,
        NewNode, cFixB]),
   failed_mutations_leave_node_unchanged.2 _ "ghost" (by simp [NewNode])⟩

/-- The insertion step of `sortSlice` below: `x` is placed before the
first element `y` with `lt x y`, after every element it does not strictly
precede.  `lt` is the Go comparator: `lt a b` means `a` sorts before
`b`. -/
def insertSorted {α : Type} (lt : α → α → Bool) (x : α) : List α → List α
  | [] => [x]
  | y :: ys => if lt x y then x :: y :: ys else y :: insertSorted lt x ys

/-- The model of Go's `sort.Slice`, as the insertion sort that
`sort.Slice` runs on slices of at most 12 elements (every node list in
this repository has at most 10).  Go documents `sort.Slice` as unstable
and its behaviour on longer slices is toolchain-dependent, so for those
this definition fixes one admissible sorted ordering; the theorems below
that rely on `sortSlice` use only properties independent of how the sort
orders elements the comparator does not distinguish (membership of the
resulting head, and determinism shared between two runs of the same
code). -/
def sortSlice {α : Type} (lt : α → α → Bool) (l : List α) : List α :=
  l.foldl (fun acc x => insertSorted lt x acc) []

/-- The left fold that keeps the current best element, replacing it only
when a later element sorts strictly ahead of it; this is the value found
at index 0 after the stable sort. -/
def bestOf {α : Type} (lt : α → α → Bool) (x : α) (xs : List α) : α :=
  xs.foldl (fun b y => if lt y b then y else b) x

lemma insertSorted_head_cons {α : Type} (lt : α → α → Bool) (x y : α)
    (ys : List α) :
    (insertSorted lt x (y :: ys)).head? = some (if lt x y then x else y) := by
  by_cases hxy : lt x y <;> simp [insertSorted, hxy]

lemma foldl_insertSorted_head {α : Type} (lt : α → α → Bool) :
    ∀ (xs : List α) (acc : List α) (hd : α), acc.head? = some hd →
      (List.foldl (fun a x => insertSorted lt x a) acc xs).head?
        = some (xs.foldl (fun b y => if lt y b then y else b) hd) := by
  intro xs
  induction xs with
  | nil => intro acc hd h; simpa using h
  | cons x xs ih =>
    intro acc hd h
    cases acc with
    | nil => simp at h
    | cons a t =>
      simp only [List.head?_cons, Option.some.injEq] at h
      subst h
      simp only [List.foldl_cons]
      exact ih (insertSorted lt x (a :: t)) (if lt x a then x else a)
        (insertSorted_head_cons lt x a t)

lemma sortSlice_head_cons {α : Type} (lt : α → α → Bool) (x : α) (xs : List α) :
    (sortSlice lt (x :: xs)).head? = some (bestOf lt x xs) := by
  unfold sortSlice bestOf
  simp only [List.foldl_cons]
  exact foldl_insertSorted_head lt xs (insertSorted lt x []) x rfl

lemma bestOf_mem {α : Type} (lt : α → α → Bool) (x : α) (xs : List α) :
    bestOf lt x xs ∈ x :: xs := by
  induction xs generalizing x with
  | nil => simp [bestOf]
  | cons y ys ih =>
    show bestOf lt (if lt y x then y else x) ys ∈ x :: y :: ys
    rcases List.mem_cons.mp (ih (if lt y x then y else x)) with h | h
    · by_cases hxy : lt y x
      · rw [h, if_pos hxy]; simp
      · rw [h, if_neg hxy]; simp
    · simp [h]

/-- `pkg/scheduler/errors.go`: scheduling error values. -/
inductive SchedError where
  | noSuitableNode
deriving DecidableEq, Repr

/-- `BinPackScheduler.Schedule` (binpack.go line 20): filter the nodes that
can fit the container, sort the candidates by utilization descending and
return the first. -/
def BinPackScheduler.Schedule (c : Container) (nodes : List Node) :
    Except SchedError Node :=
  match nodes.filter (fun n => n.CanFit c) with
  | [] => Except.error SchedError.noSuitableNode
  | x :: xs =>
    Except.ok ((sortSlice (fun a b => decide (b.Utilization < a.Utilization))
      (x :: xs)).headD x)

/-- `SpreadScheduler.Schedule` (spread.go line 61): filter the nodes that
can fit the container, sort the candidates by utilization ascending and
return the first. -/
def SpreadScheduler.Schedule (c : Container) (nodes : List Node) :
    Except SchedError Node :=
  match nodes.filter (fun n => n.CanFit c) with
  | [] => Except.error SchedError.noSuitableNode
  | x :: xs =>
    Except.ok ((sortSlice (fun a b => decide (a.Utilization < b.Utilization))
      (x :: xs)).headD x)

/-- `pkg/scheduler/adaptive.go`: the adaptive scheduler state.  The
`schedulingStartTime` wall-clock field is replaced by passing the elapsed
minutes to each invocation; the two Go maps are functions returning
`none` for missing keys. -/
structure AdaptiveScheduler where
  containerHistory : String → Option (List ℚ)
  nodeHistory : String → Option (List ℚ)
  schedulerPhase : ℕ
  cpuWeight : ℚ
  memoryWeight : ℚ
  networkWeight : ℚ
  ioWeight : ℚ

/-- `NewAdaptiveScheduler` (adaptive.go line 26). -/
def NewAdaptiveScheduler : AdaptiveScheduler where
  containerHistory := fun _ => none
  nodeHistory := fun _ => none
  schedulerPhase := 0
  cpuWeight := 0.25
  memoryWeight := 0.25
  networkWeight := 0.25
  ioWeight := 0.25

/-- `updateSchedulerPhase` (adaptive.go line 166): set the phase from the
elapsed minutes and overwrite the four weights with the phase profile. -/
def AdaptiveScheduler.updateSchedulerPhase (elapsedMinutes : ℚ)
    (s : AdaptiveScheduler) : AdaptiveScheduler :=
  if elapsedMinutes < 1 then
    { s with schedulerPhase := 0, cpuWeight := 0.2, memoryWeight := 0.2,
             networkWeight := 0.3, ioWeight := 0.3 }
  else if elapsedMinutes > 10 then
    { s with schedulerPhase := 2, cpuWeight := 0.3, memoryWeight := 0.3,
             networkWeight := 0.2, ioWeight := 0.2 }
  else
    { s with schedulerPhase := 1, cpuWeight := 0.25, memoryWeight := 0.25,
             networkWeight := 0.25, ioWeight := 0.25 }

/-- `calculateInterferenceScore` (adaptive.go line 109): start from 1.0,
walk the containers already on the node subtracting the type-match and
intensity-overlap penalties, and clamp the result below at 0.1. -/
def AdaptiveScheduler.calculateInterferenceScore (c : Container) (n : Node) : ℚ :=
  let score := n.containers.foldl (fun score existing =>
    let score := if existing.containerType = c.containerType
      then score - 0.1 else score
    let score := if existing.CPUIntensive && c.CPUIntensive
      then score - 0.15 else score
    let score := if existing.MemoryIntensive && c.MemoryIntensive
      then score - 0.15 else score
    let score := if existing.IOIntensive && c.IOIntensive
      then score - 0.15 else score
    if existing.NetworkIntensive && c.NetworkIntensive
      then score - 0.15 else score) 1
  max 0.1 score

/-- `calculateNodeHealthScore` (adaptive.go line 144); `sqrt` interprets
`math.Sqrt` inside the load variance and `uptimeHours` interprets the
wall-clock uptime reading. -/
def AdaptiveScheduler.calculateNodeHealthScore (sqrt : ℚ → ℚ)
    (uptimeHours : Node → ℚ) (s : AdaptiveScheduler) (n : Node) : ℚ :=
  let baseScore : ℚ :=
    match s.nodeHistory n.id with
    | some history => if history.length > 0 then history.getLastD 1 else 1
    | none => 1
  let variancePenalty := Node.LoadVariance sqrt n * 0.2
  let uptimeScore := min 1 (uptimeHours n / 24) * 0.1
  baseScore - variancePenalty + uptimeScore

/-- `calculateFitnessScore` (adaptive.go line 85). -/
def AdaptiveScheduler.calculateFitnessScore (sqrt : ℚ → ℚ)
    (uptimeHours : Node → ℚ) (s : AdaptiveScheduler) (c : Container)
    (n : Node) : ℚ :=
  let cpuScore := (n.AvailableCPU - c.cpuRequest) / n.totalCPU
  let memScore := (n.AvailableMemory - c.memoryRequest) / n.totalMemory
  let netScore := (n.AvailableNetwork - c.networkRequest) / n.totalNetwork
  let ioScore := (n.AvailableIo - c.ioRequest) / n.totalIo
  let baseScore := cpuScore * s.cpuWeight + memScore * s.memoryWeight
    + netScore * s.networkWeight + ioScore * s.ioWeight
  baseScore * 0.6 + AdaptiveScheduler.calculateInterferenceScore c n * 0.2
    + AdaptiveScheduler.calculateNodeHealthScore sqrt uptimeHours s n * 0.2

/-- `adjustWeightsForContainer` (adaptive.go line 200). -/
def AdaptiveScheduler.adjustWeightsForContainer (s : AdaptiveScheduler)
    (containerType : String) : AdaptiveScheduler :=
  match s.containerHistory containerType with
  | none => s
  | some history =>
    if history.length < 4 then s
    else
      let cpuUsage := history.getD 0 0
      let memUsage := history.getD 1 0
      let netUsage := history.getD 2 0
      let ioUsage := history.getD 3 0
      let total := cpuUsage + memUsage + netUsage + ioUsage
      if total > 0 then
        { s with cpuWeight := 0.1 + cpuUsage / total * 0.6,
                 memoryWeight := 0.1 + memUsage / total * 0.6,
                 networkWeight := 0.1 + netUsage / total * 0.6,
                 ioWeight := 0.1 + ioUsage / total * 0.6 }
      else s

/-- `recordPlacement` (adaptive.go line 222): overwrite the per-type
resource pattern and the node's last observed health score. -/
def AdaptiveScheduler.recordPlacement (s : AdaptiveScheduler) (c : Container)
    (n : Node) : AdaptiveScheduler :=
  { s with
    containerHistory := fun k => if k = c.containerType
      then some [c.cpuRequest, c.memoryRequest, c.networkRequest, c.ioRequest]
      else s.containerHistory k,
    nodeHistory := fun k => if k = n.id
      then some [n.healthScore]
      else s.nodeHistory k }

/-- `AdaptiveScheduler.Schedule` (adaptive.go line 43): phase update, fit
filter, score, sort descending by score, per-type weight re-tune (after
scoring), record the placement, return the top candidate. -/
def AdaptiveScheduler.Schedule (sqrt : ℚ → ℚ) (uptimeHours : Node → ℚ)
    (elapsedMinutes : ℚ) (s : AdaptiveScheduler) (c : Container)
    (nodes : List Node) : Except SchedError Node × AdaptiveScheduler :=
  let s1 := s.updateSchedulerPhase elapsedMinutes
  match nodes.filter (fun n => n.CanFit c) with
  | [] => (Except.error SchedError.noSuitableNode, s1)
  | x :: xs =>
    let scored := (x :: xs).map (fun n =>
      (n, AdaptiveScheduler.calculateFitnessScore sqrt uptimeHours s1 c n))
    let sorted := sortSlice (fun a b => decide (b.2 < a.2)) scored
    let s2 := if (s1.containerHistory c.containerType).isSome
      then s1.adjustWeightsForContainer c.containerType else s1
    let bestNode := (sorted.headD (x, 0)).1
    (Except.ok bestNode, s2.recordPlacement c bestNode)

/-- The Adaptive scheduler with the per-type weight re-tune call removed
(adaptive.go lines 72-76 deleted); everything else is identical to
`AdaptiveScheduler.Schedule`. -/
def AdaptiveScheduler.ScheduleNoAdjust (sqrt : ℚ → ℚ) (uptimeHours : Node → ℚ)
    (elapsedMinutes : ℚ) (s : AdaptiveScheduler) (c : Container)
    (nodes : List Node) : Except SchedError Node × AdaptiveScheduler :=
  let s1 := s.updateSchedulerPhase elapsedMinutes
  match nodes.filter (fun n => n.CanFit c) with
  | [] => (Except.error SchedError.noSuitableNode, s1)
  | x :: xs =>
    let scored := (x :: xs).map (fun n =>
      (n, AdaptiveScheduler.calculateFitnessScore sqrt uptimeHours s1 c n))
    let sorted := sortSlice (fun a b => decide (b.2 < a.2)) scored
    let bestNode := (sorted.headD (x, 0)).1
    (Except.ok bestNode, s1.recordPlacement c bestNode)

/-- One adaptive invocation input: elapsed minutes at the call, the
container, and the node list. -/
def AdaptiveCall := ℚ × Container × List Node

/-- Thread a sequence of Schedule invocations through the adaptive state,
collecting each invocation's result. -/
def runAdaptive (sqrt : ℚ → ℚ) (uptimeHours : Node → ℚ) :
    AdaptiveScheduler → List AdaptiveCall →
      List (Except SchedError Node) × AdaptiveScheduler
  | s, [] => ([], s)
  | s, (t, c, nodes) :: rest =>
    let step := AdaptiveScheduler.Schedule sqrt uptimeHours t s c nodes
    let next := runAdaptive sqrt uptimeHours step.2 rest
    (step.1 :: next.1, next.2)

/-- The same runner over the re-tune-free variant. -/
def runAdaptiveNoAdjust (sqrt : ℚ → ℚ) (uptimeHours : Node → ℚ) :
    AdaptiveScheduler → List AdaptiveCall →
      List (Except SchedError Node) × AdaptiveScheduler
  | s, [] => ([], s)
  | s, (t, c, nodes) :: rest =>
    let step := AdaptiveScheduler.ScheduleNoAdjust sqrt uptimeHours t s c nodes
    let next := runAdaptiveNoAdjust sqrt uptimeHours step.2 rest
    (step.1 :: next.1, next.2)

lemma sortSlice_headD {α : Type} (lt : α → α → Bool) (x d : α) (xs : List α) :
    (sortSlice lt (x :: xs)).headD d = bestOf lt x xs := by
  have h := sortSlice_head_cons lt x xs
  cases hs : sortSlice lt (x :: xs) with
  | nil => rw [hs] at h; simp at h
  | cons a t =>
    rw [hs] at h
    simp only [List.head?_cons, Option.some.injEq] at h
    simp [h]

/-- C2: for every policy, a node returned by `Schedule` passed the fit
check `CanFit` performed on it during the fit-filter pass. -/
theorem schedule_fit_soundness :
    (∀ (c : Container) (nodes : List Node) (n : Node),
        BinPackScheduler.Schedule c nodes = Except.ok n → n.CanFit c = true)
    ∧ (∀ (c : Container) (nodes : List Node) (n : Node),
        SpreadScheduler.Schedule c nodes = Except.ok n → n.CanFit c = true)
    ∧ (∀ (sq : ℚ → ℚ) (up : Node → ℚ) (t : ℚ) (s : AdaptiveScheduler)
        (c : Container) (nodes : List Node) (n : Node),
        (AdaptiveScheduler.Schedule sq up t s c nodes).1 = Except.ok n →
          n.CanFit c = true) := by
  refine ⟨?_, ?_, ?_⟩
  · intro c nodes n h
    unfold BinPackScheduler.Schedule at h
    split at h
    · simp at h
    · next x xs heq =>
      simp only [Except.ok.injEq] at h
      rw [sortSlice_headD] at h
      have hmem : n ∈ x :: xs := h ▸ bestOf_mem _ x xs
      rw [← heq] at hmem
      exact (List.mem_filter.mp hmem).2
  · intro c nodes n h
    unfold SpreadScheduler.Schedule at h
    split at h
    · simp at h
    · next x xs heq =>
      simp only [Except.ok.injEq] at h
      rw [sortSlice_headD] at h
      have hmem : n ∈ x :: xs := h ▸ bestOf_mem _ x xs
      rw [← heq] at hmem
      exact (List.mem_filter.mp hmem).2
  · intro sq up t s c nodes n h
    unfold AdaptiveScheduler.Schedule at h
    dsimp only at h
    split at h
    · simp at h
    · next x xs heq =>
      simp only [Except.ok.injEq] at h
      rw [List.map_cons, sortSlice_headD] at h
      have hmem := bestOf_mem (fun a b => decide (b.2 < a.2))
        (x, AdaptiveScheduler.calculateFitnessScore sq up
          (s.updateSchedulerPhase t) c x)
        (xs.map (fun m =>
          (m, AdaptiveScheduler.calculateFitnessScore sq up
            (s.updateSchedulerPhase t) c m)))
      rcases List.mem_cons.mp hmem with hh | ht
      · have hn : n = x := by rw [← h, hh]
        have hx : x ∈ nodes.filter (fun n => n.CanFit c) := by
          rw [heq]; simp
        rw [hn]
        exact (List.mem_filter.mp hx).2
      · rcases List.mem_map.mp ht with ⟨m, hm, hpair⟩
        have hn : n = m := by rw [← h, ← hpair]
        have hx : m ∈ nodes.filter (fun n => n.CanFit c) := by
          rw [heq]; simp [hm]
        rw [hn]
        exact (List.mem_filter.mp hx).2

/-- Concrete container fixture resident on the loaded node. -/
def cFixC : Container :=
  { id := "cC", name := "web-c", image := "img-c", cpuRequest := 2,
    memoryRequest := 1024, networkRequest := 100, ioRequest := 500,
    containerType := "web", priority := 0 }

/-- Concrete node fixture: a medium node already holding `cFixC`. -/
def nFixLoaded : Node :=
  { id := "n-loaded", name := "medium-0", totalCPU := 4, totalMemory := 8192,
    totalNetwork := 2000, totalIo := 10000, usedCPU := 2, usedMemory := 1024,
    usedNetwork := 100, usedIo := 500, containers := [cFixC],
    loadHistory := [], healthScore := 1 }

/-- Concrete node fixture: an empty medium node. -/
def nFixEmpty : Node := NewNode "n-empty" "medium-1" 4 8192 2000 10000

theorem schedule_fit_soundness_witness :
    nFixLoaded.CanFit cFixA = true ∧ nFixEmpty.CanFit cFixA = true
    ∧ nFixEmpty.CanFit cFixA = true :=
  ⟨schedule_fit_soundness.1 cFixA [nFixLoaded, nFixEmpty] nFixLoaded
      (by norm_num [BinPackScheduler.Schedule, Node.CanFit, Node.AvailableCPU,
        Node.AvailableMemory, Node.AvailableNetwork, Node.AvailableIo,
        Node.Utilization, nFixLoaded, nFixEmpty, cFixA, cFixC, sortSlice,
        insertSorted, List.filter, NewNode]),
   schedule_fit_soundness.2.1 cFixA [nFixLoaded, nFixEmpty] nFixEmpty
      (by norm_num [SpreadScheduler.Schedule, Node.CanFit, Node.AvailableCPU,
        Node.AvailableMemory, Node.AvailableNetwork, Node.AvailableIo,
        Node.Utilization, nFixLoaded, nFixEmpty, cFixA, cFixC, sortSlice,
        insertSorted, List.filter, NewNode]),
   schedule_fit_soundness.2.2 (fun q => q) (fun _ => 0) 0
      NewAdaptiveScheduler cFixA [nFixEmpty] nFixEmpty
      (by norm_num [AdaptiveScheduler.Schedule,
        AdaptiveScheduler.updateSchedulerPhase, Node.CanFit,
        Node.AvailableCPU, Node.AvailableMemory, Node.AvailableNetwork,
        Node.AvailableIo, NewAdaptiveScheduler, nFixEmpty, cFixA, sortSlice,
        insertSorted, List.filter, NewNode])⟩

/-- The per-existing-container interference penalty as the specification
words it: 0.1 for a type match plus 0.15 for each of the four intensity
categories in which both the existing and the incoming container are
intensive. -/
def interferencePenalty (c existing : Container) : ℚ :=
  (if existing.containerType = c.containerType then 0.1 else 0)
  + (if existing.CPUIntensive && c.CPUIntensive then 0.15 else 0)
  + (if existing.MemoryIntensive && c.MemoryIntensive then 0.15 else 0)
  + (if existing.NetworkIntensive && c.NetworkIntensive then 0.15 else 0)
  + (if existing.IOIntensive && c.IOIntensive then 0.15 else 0)

lemma interference_foldl (c : Container) (l : List Container) (a : ℚ) :
    List.foldl (fun score existing =>
      let score := if existing.containerType = c.containerType
        then score - 0.1 else score
      let score := if existing.CPUIntensive && c.CPUIntensive
        then score - 0.15 else score
      let score := if existing.MemoryIntensive && c.MemoryIntensive
        then score - 0.15 else score
      let score := if existing.IOIntensive && c.IOIntensive
        then score - 0.15 else score
      if existing.NetworkIntensive && c.NetworkIntensive
        then score - 0.15 else score) a l
      = a - (l.map (interferencePenalty c)).sum := by
  induction l generalizing a with
  | nil => simp
  | cons e es ih =>
    simp only [List.foldl_cons, List.map_cons, List.sum_cons]
    rw [ih]
    simp only [interferencePenalty]
    split_ifs <;> ring

/-- C5: the Adaptive policy's interference component equals 1.0 minus the
summed per-container penalties (0.1 per type match, 0.15 per shared
intensity category over cpu, memory, network, io), clamped below at
0.1. -/
theorem interference_score_closed_form (c : Container) (n : Node) :
    AdaptiveScheduler.calculateInterferenceScore c n
      = max 0.1 (1 - (n.containers.map (interferencePenalty c)).sum) := by
  unfold AdaptiveScheduler.calculateInterferenceScore
  rw [interference_foldl]

/-- Every resource-usage list stored in the per-type container history is
elementwise nonnegative. -/
def HistNonneg (s : AdaptiveScheduler) : Prop :=
  ∀ ty h, s.containerHistory ty = some h → ∀ v ∈ h, 0 ≤ v

/-- The weight bounds the spec claims: each weight in [0.1, 0.7], sum at
most 1. -/
def WeightsOk (s : AdaptiveScheduler) : Prop :=
  (0.1 ≤ s.cpuWeight ∧ s.cpuWeight ≤ 0.7)
  ∧ (0.1 ≤ s.memoryWeight ∧ s.memoryWeight ≤ 0.7)
  ∧ (0.1 ≤ s.networkWeight ∧ s.networkWeight ≤ 0.7)
  ∧ (0.1 ≤ s.ioWeight ∧ s.ioWeight ≤ 0.7)
  ∧ s.cpuWeight + s.memoryWeight + s.networkWeight + s.ioWeight ≤ 1

/-- Every container in the invocation sequence has nonnegative requests. -/
def CallsNonneg (calls : List AdaptiveCall) : Prop :=
  ∀ call ∈ calls, (call.2.1 : Container).Nonneg

lemma updateSchedulerPhase_weightsOk (t : ℚ) (s : AdaptiveScheduler) :
    WeightsOk (s.updateSchedulerPhase t) := by
  unfold AdaptiveScheduler.updateSchedulerPhase WeightsOk
  split_ifs <;> norm_num

lemma updateSchedulerPhase_containerHistory (t : ℚ) (s : AdaptiveScheduler) :
    (s.updateSchedulerPhase t).containerHistory = s.containerHistory := by
  unfold AdaptiveScheduler.updateSchedulerPhase
  split_ifs <;> rfl

lemma updateSchedulerPhase_nodeHistory (t : ℚ) (s : AdaptiveScheduler) :
    (s.updateSchedulerPhase t).nodeHistory = s.nodeHistory := by
  unfold AdaptiveScheduler.updateSchedulerPhase
  split_ifs <;> rfl

lemma adjustWeights_containerHistory (s : AdaptiveScheduler) (ty : String) :
    (s.adjustWeightsForContainer ty).containerHistory = s.containerHistory := by
  unfold AdaptiveScheduler.adjustWeightsForContainer
  cases s.containerHistory ty
  · rfl
  · dsimp only
    split_ifs <;> rfl

lemma adjustWeights_nodeHistory (s : AdaptiveScheduler) (ty : String) :
    (s.adjustWeightsForContainer ty).nodeHistory = s.nodeHistory := by
  unfold AdaptiveScheduler.adjustWeightsForContainer
  cases s.containerHistory ty
  · rfl
  · dsimp only
    split_ifs <;> rfl

lemma getD_nonneg (h : List ℚ) (i : ℕ) (hh : ∀ v ∈ h, 0 ≤ v) :
    0 ≤ h.getD i 0 := by
  rcases lt_or_ge i h.length with hi | hi
  · rw [List.getD_eq_getElem h 0 hi]
    exact hh _ (h.getElem_mem hi)
  · rw [List.getD_eq_default h 0 hi]

lemma adjustWeights_weightsOk (s : AdaptiveScheduler) (ty : String)
    (hh : HistNonneg s) (hw : WeightsOk s) :
    WeightsOk (s.adjustWeightsForContainer ty) := by
  unfold AdaptiveScheduler.adjustWeightsForContainer
  cases hty : s.containerHistory ty with
  | none => exact hw
  | some history =>
    dsimp only
    split_ifs with hlen htot
    · exact hw
    · have hnn := hh ty history hty
      have h0 : 0 ≤ history.getD 0 0 := getD_nonneg _ _ hnn
      have h1 : 0 ≤ history.getD 1 0 := getD_nonneg _ _ hnn
      have h2 : 0 ≤ history.getD 2 0 := getD_nonneg _ _ hnn
      have h3 : 0 ≤ history.getD 3 0 := getD_nonneg _ _ hnn
      set u0 := history.getD 0 0
      set u1 := history.getD 1 0
      set u2 := history.getD 2 0
      set u3 := history.getD 3 0
      have htot' : (0 : ℚ) < u0 + u1 + u2 + u3 := htot
      have hne : u0 + u1 + u2 + u3 ≠ 0 := ne_of_gt htot'
      have hsum : u0 / (u0 + u1 + u2 + u3) + u1 / (u0 + u1 + u2 + u3)
          + u2 / (u0 + u1 + u2 + u3) + u3 / (u0 + u1 + u2 + u3) = 1 := by
        field_simp
      have hdiv : ∀ u : ℚ, 0 ≤ u → u ≤ u0 + u1 + u2 + u3 →
          0 ≤ u / (u0 + u1 + u2 + u3) ∧ u / (u0 + u1 + u2 + u3) ≤ 1 := by
        intro u hu hle
        constructor
        · positivity
        · rw [div_le_one htot']
          exact hle
      have hd0 := hdiv u0 h0 (by linarith)
      have hd1 := hdiv u1 h1 (by linarith)
      have hd2 := hdiv u2 h2 (by linarith)
      have hd3 := hdiv u3 h3 (by linarith)
      refine ⟨⟨?_, ?_⟩, ⟨?_, ?_⟩, ⟨?_, ?_⟩, ⟨?_, ?_⟩, ?_⟩ <;>
        dsimp only <;> [skip; skip; skip; skip; skip; skip; skip; skip; skip]
      · nlinarith [hd0.1]
      · nlinarith [hd0.2]
      · nlinarith [hd1.1]
      · nlinarith [hd1.2]
      · nlinarith [hd2.1]
      · nlinarith [hd2.2]
      · nlinarith [hd3.1]
      · nlinarith [hd3.2]
      · nlinarith [hd0.1, hd1.1, hd2.1, hd3.1, hsum]
    · exact hw

lemma recordPlacement_weights (s : AdaptiveScheduler) (c : Container)
    (n : Node) :
    (s.recordPlacement c n).cpuWeight = s.cpuWeight
    ∧ (s.recordPlacement c n).memoryWeight = s.memoryWeight
    ∧ (s.recordPlacement c n).networkWeight = s.networkWeight
    ∧ (s.recordPlacement c n).ioWeight = s.ioWeight :=
  ⟨rfl, rfl, rfl, rfl⟩

lemma recordPlacement_histNonneg (s : AdaptiveScheduler) (c : Container)
    (n : Node) (hh : HistNonneg s) (hc : c.Nonneg) :
    HistNonneg (s.recordPlacement c n) := by
  intro ty h hsome v hv
  unfold AdaptiveScheduler.recordPlacement at hsome
  dsimp only at hsome
  by_cases hk : ty = c.containerType
  · rw [if_pos hk] at hsome
    obtain ⟨c1, c2, c3, c4⟩ := hc
    cases hsome
    simp only [List.mem_cons, List.not_mem_nil, or_false] at hv
    rcases hv with h1 | h1 | h1 | h1 <;> subst h1 <;> assumption
  · rw [if_neg hk] at hsome
    exact hh ty h hsome v hv

lemma schedule_step_invariant (sq : ℚ → ℚ) (up : Node → ℚ) (t : ℚ)
    (s : AdaptiveScheduler) (c : Container) (nodes : List Node)
    (hh : HistNonneg s) (hc : c.Nonneg) :
    WeightsOk (AdaptiveScheduler.Schedule sq up t s c nodes).2
    ∧ HistNonneg (AdaptiveScheduler.Schedule sq up t s c nodes).2 := by
  have hh1 : HistNonneg (s.updateSchedulerPhase t) := by
    intro ty h hsome
    rw [updateSchedulerPhase_containerHistory] at hsome
    exact hh ty h hsome
  have hw1 : WeightsOk (s.updateSchedulerPhase t) :=
    updateSchedulerPhase_weightsOk t s
  cases hf : nodes.filter (fun n => n.CanFit c) with
  | nil =>
    simp only [AdaptiveScheduler.Schedule, hf]
    exact ⟨hw1, hh1⟩
  | cons x xs =>
    simp only [AdaptiveScheduler.Schedule, hf]
    have hw2 : WeightsOk (if ((s.updateSchedulerPhase t).containerHistory
        c.containerType).isSome
        then (s.updateSchedulerPhase t).adjustWeightsForContainer
          c.containerType
        else s.updateSchedulerPhase t) := by
      split_ifs with hs
      · exact adjustWeights_weightsOk _ _ hh1 hw1
      · exact hw1
    have hh2 : HistNonneg (if ((s.updateSchedulerPhase t).containerHistory
        c.containerType).isSome
        then (s.updateSchedulerPhase t).adjustWeightsForContainer
          c.containerType
        else s.updateSchedulerPhase t) := by
      split_ifs with hs
      · intro ty h hsome
        rw [adjustWeights_containerHistory] at hsome
        exact hh1 ty h hsome
      · exact hh1
    constructor
    · obtain ⟨w1, w2, w3, w4, w5⟩ := hw2
      exact ⟨w1, w2, w3, w4, w5⟩
    · exact recordPlacement_histNonneg _ c _ hh2 hc

lemma runAdaptive_invariant (sq : ℚ → ℚ) (up : Node → ℚ) :
    ∀ (calls : List AdaptiveCall) (s : AdaptiveScheduler),
      HistNonneg s → CallsNonneg calls → WeightsOk s →
      WeightsOk (runAdaptive sq up s calls).2
      ∧ HistNonneg (runAdaptive sq up s calls).2 := by
  intro calls
  induction calls with
  | nil => intro s h1 _ h3; exact ⟨h3, h1⟩
  | cons call rest ih =>
    intro s h1 h2 h3
    obtain ⟨t, c, nodes⟩ := call
    have hc : c.Nonneg := h2 (t, c, nodes) (by simp)
    have hstep := schedule_step_invariant sq up t s c nodes h1 hc
    have hrest : CallsNonneg rest := fun x hx => h2 x (by simp [hx])
    simpa [runAdaptive] using
      ih (AdaptiveScheduler.Schedule sq up t s c nodes).2 hstep.2 hrest hstep.1

/-- C6: after any sequence of Adaptive `Schedule` invocations over
containers with nonnegative resource requests, each of the four weights
lies in [0.1, 0.7] and their sum is at most 1. -/
theorem adaptive_weights_invariant (sq : ℚ → ℚ) (up : Node → ℚ)
    (calls : List AdaptiveCall) (hcalls : CallsNonneg calls) :
    let s := (runAdaptive sq up NewAdaptiveScheduler calls).2
    (0.1 ≤ s.cpuWeight ∧ s.cpuWeight ≤ 0.7)
    ∧ (0.1 ≤ s.memoryWeight ∧ s.memoryWeight ≤ 0.7)
    ∧ (0.1 ≤ s.networkWeight ∧ s.networkWeight ≤ 0.7)
    ∧ (0.1 ≤ s.ioWeight ∧ s.ioWeight ≤ 0.7)
    ∧ s.cpuWeight + s.memoryWeight + s.networkWeight + s.ioWeight ≤ 1 := by
  intro s
  have hinit : HistNonneg NewAdaptiveScheduler := by
    intro ty h hsome
    simp [NewAdaptiveScheduler] at hsome
  have hwinit : WeightsOk NewAdaptiveScheduler := by
    unfold WeightsOk NewAdaptiveScheduler
    norm_num
  exact (runAdaptive_invariant sq up calls NewAdaptiveScheduler
    hinit hcalls hwinit).1

theorem adaptive_weights_invariant_witness :
    let s := (runAdaptive (fun q => q) (fun _ => 0) NewAdaptiveScheduler
      [((0 : ℚ), cFixA, [nFixEmpty])]).2
    (0.1 ≤ s.cpuWeight ∧ s.cpuWeight ≤ 0.7)
    ∧ (0.1 ≤ s.memoryWeight ∧ s.memoryWeight ≤ 0.7)
    ∧ (0.1 ≤ s.networkWeight ∧ s.networkWeight ≤ 0.7)
    ∧ (0.1 ≤ s.ioWeight ∧ s.ioWeight ≤ 0.7)
    ∧ s.cpuWeight + s.memoryWeight + s.networkWeight + s.ioWeight ≤ 1 :=
  adaptive_weights_invariant (fun q => q) (fun _ => 0)
    [((0 : ℚ), cFixA, [nFixEmpty])]
    (by
      intro call hcall
      simp only [List.mem_singleton] at hcall
      subst hcall
      norm_num [Container.Nonneg, cFixA])

lemma updateSchedulerPhase_congr (t : ℚ) (s1 s2 : AdaptiveScheduler)
    (h1 : s1.containerHistory = s2.containerHistory)
    (h2 : s1.nodeHistory = s2.nodeHistory) :
    s1.updateSchedulerPhase t = s2.updateSchedulerPhase t := by
  cases s1; cases s2
  dsimp only at h1 h2
  subst h1; subst h2
  unfold AdaptiveScheduler.updateSchedulerPhase
  split_ifs <;> rfl

lemma schedule_noadjust_step (sq : ℚ → ℚ) (up : Node → ℚ) (t : ℚ)
    (c : Container) (nodes : List Node) (s1 s2 : AdaptiveScheduler)
    (h1 : s1.containerHistory = s2.containerHistory)
    (h2 : s1.nodeHistory = s2.nodeHistory) :
    (AdaptiveScheduler.Schedule sq up t s1 c nodes).1
      = (AdaptiveScheduler.ScheduleNoAdjust sq up t s2 c nodes).1
    ∧ (AdaptiveScheduler.Schedule sq up t s1 c nodes).2.containerHistory
      = (AdaptiveScheduler.ScheduleNoAdjust sq up t s2 c nodes).2.containerHistory
    ∧ (AdaptiveScheduler.Schedule sq up t s1 c nodes).2.nodeHistory
      = (AdaptiveScheduler.ScheduleNoAdjust sq up t s2 c nodes).2.nodeHistory := by
  have hupd := updateSchedulerPhase_congr t s1 s2 h1 h2
  cases hf : nodes.filter (fun n => n.CanFit c) with
  | nil =>
    simp only [AdaptiveScheduler.Schedule, AdaptiveScheduler.ScheduleNoAdjust,
      hf, hupd]
    exact ⟨trivial, trivial, trivial⟩
  | cons x xs =>
    simp only [AdaptiveScheduler.Schedule, AdaptiveScheduler.ScheduleNoAdjust,
      hf, hupd]
    refine ⟨trivial, ?_, ?_⟩
    · unfold AdaptiveScheduler.recordPlacement
      dsimp only
      funext k
      by_cases hk : k = c.containerType
      · rw [if_pos hk, if_pos hk]
      · rw [if_neg hk, if_neg hk]
        split_ifs with hs
        · rw [adjustWeights_containerHistory]
        · rfl
    · unfold AdaptiveScheduler.recordPlacement
      dsimp only
      funext k
      by_cases hk : k = ((sortSlice (fun a b => decide (b.2 < a.2))
          ((x :: xs).map (fun n =>
            (n, AdaptiveScheduler.calculateFitnessScore sq up
              (s2.updateSchedulerPhase t) c n)))).headD (x, 0)).1.id
      · rw [if_pos hk, if_pos hk]
      · rw [if_neg hk, if_neg hk]
        split_ifs with hs
        · rw [adjustWeights_nodeHistory]
        · rfl

lemma runAdaptive_noadjust_agree (sq : ℚ → ℚ) (up : Node → ℚ) :
    ∀ (calls : List AdaptiveCall) (s1 s2 : AdaptiveScheduler),
      s1.containerHistory = s2.containerHistory →
      s1.nodeHistory = s2.nodeHistory →
      (runAdaptive sq up s1 calls).1 = (runAdaptiveNoAdjust sq up s2 calls).1 := by
  intro calls
  induction calls with
  | nil => intro s1 s2 _ _; rfl
  | cons call rest ih =>
    intro s1 s2 h1 h2
    obtain ⟨t, c, nodes⟩ := call
    have hstep := schedule_noadjust_step sq up t c nodes s1 s2 h1 h2
    simp only [runAdaptive, runAdaptiveNoAdjust]
    rw [hstep.1, ih _ _ hstep.2.1 hstep.2.2]

/-- C9: the Adaptive policy's per-type weight re-tune influences no node
selection: since every invocation's phase update overwrites all four
weights before scoring, the scheduler with the `adjustWeightsForContainer`
call removed returns the same result on every invocation of every call
sequence. -/
theorem weight_retune_no_influence (sq : ℚ → ℚ) (up : Node → ℚ)
    (calls : List AdaptiveCall) :
    (runAdaptive sq up NewAdaptiveScheduler calls).1
      = (runAdaptiveNoAdjust sq up NewAdaptiveScheduler calls).1 :=
  runAdaptive_noadjust_agree sq up calls NewAdaptiveScheduler
    NewAdaptiveScheduler rfl rfl

/-- `pkg/metrics/metrics.go`: one scheduling event (the wall-clock
`Timestamp` field is omitted; no operation modelled here reads it).
Latency is carried as a rational number of microseconds. -/
structure SchedulingEvent where
  containerID : String
  containerType : String
  nodeID : String
  schedulingLatency : ℚ
  scheduleSuccess : Bool
  resourceUtilization : ℚ
deriving DecidableEq, Repr

/-- `MetricsCollector` (metrics.go line 36). -/
structure MetricsCollector where
  events : List SchedulingEvent
  containersScheduled : ℕ
  schedulingFailures : ℕ
  totalLatency : ℚ
  resourceUtilization : ℚ
  utilizationDatapoints : ℕ
deriving DecidableEq, Repr

/-- `NewCollector` (metrics.go line 45). -/
def NewCollector : MetricsCollector where
  events := []
  containersScheduled := 0
  schedulingFailures := 0
  totalLatency := 0
  resourceUtilization := 0
  utilizationDatapoints := 0

/-- `RecordSchedulingEvent` (metrics.go line 56): sample the node's
utilization (0 with no node), fold it into the running mean, append the
event, and bump the success or failure counters. -/
def MetricsCollector.RecordSchedulingEvent (m : MetricsCollector)
    (c : Container) (node : Option Node) (latency : ℚ) (success : Bool) :
    MetricsCollector :=
  let nodeID := match node with
    | some n => n.id
    | none => ""
  let utilization := match node with
    | some n => n.Utilization
    | none => 0
  let m1 := match node with
    | some _ =>
      { m with
        resourceUtilization := (m.resourceUtilization
            * (m.utilizationDatapoints : ℚ) + utilization)
          / ((m.utilizationDatapoints : ℚ) + 1),
        utilizationDatapoints := m.utilizationDatapoints + 1 }
    | none => m
  let event : SchedulingEvent :=
    { containerID := c.id, containerType := c.containerType,
      nodeID := nodeID, schedulingLatency := latency,
      scheduleSuccess := success, resourceUtilization := utilization }
  let m2 := { m1 with events := m1.events ++ [event] }
  if success then
    { m2 with containersScheduled := m2.containersScheduled + 1,
              totalLatency := m2.totalLatency + latency }
  else
    { m2 with schedulingFailures := m2.schedulingFailures + 1 }

/-- `Results` (metrics.go line 23). -/
structure Results where
  ContainersScheduled : ℕ
  SchedulingFailures : ℕ
  AverageLatency : ℚ
  ResourceUtilization : ℚ
  Events : List SchedulingEvent
deriving DecidableEq, Repr

/-- `GetResults` (metrics.go line 89); the average latency converts the
microsecond total to milliseconds. -/
def MetricsCollector.GetResults (m : MetricsCollector) : Results where
  ContainersScheduled := m.containersScheduled
  SchedulingFailures := m.schedulingFailures
  AverageLatency := if m.containersScheduled > 0
    then m.totalLatency / (m.containersScheduled : ℚ) / 1000 else 0
  ResourceUtilization := m.resourceUtilization
  Events := m.events

/-- One `RecordSchedulingEvent` call's arguments: container, the chosen
node when present, latency, success flag. -/
def RecordCall := Container × Option Node × ℚ × Bool

/-- Replay a sequence of record calls against a collector. -/
def runRecords (m : MetricsCollector) (calls : List RecordCall) :
    MetricsCollector :=
  calls.foldl (fun m call =>
    m.RecordSchedulingEvent call.1 call.2.1 call.2.2.1 call.2.2.2) m

/-- The utilization values sampled at the calls where a node was
present. -/
def utilSamples (calls : List RecordCall) : List ℚ :=
  calls.filterMap (fun call => (call.2.1 : Option Node).map Node.Utilization)

lemma record_util_fields (m : MetricsCollector) (c : Container)
    (node : Option Node) (latency : ℚ) (success : Bool) :
    ((m.RecordSchedulingEvent c node latency success).utilizationDatapoints
        = match node with
          | some _ => m.utilizationDatapoints + 1
          | none => m.utilizationDatapoints)
    ∧ ((m.RecordSchedulingEvent c node latency success).resourceUtilization
        = match node with
          | some n => (m.resourceUtilization * (m.utilizationDatapoints : ℚ)
              + n.Utilization) / ((m.utilizationDatapoints : ℚ) + 1)
          | none => m.resourceUtilization) := by
  cases node <;>
    simp only [MetricsCollector.RecordSchedulingEvent] <;>
    cases success <;> simp

lemma runRecords_mean (calls : List RecordCall) :
    ∀ (m : MetricsCollector),
      (runRecords m calls).utilizationDatapoints
        = m.utilizationDatapoints + (utilSamples calls).length
      ∧ ((utilSamples calls).length = 0 →
          (runRecords m calls).resourceUtilization = m.resourceUtilization)
      ∧ (runRecords m calls).resourceUtilization
          * ((m.utilizationDatapoints : ℚ) + ((utilSamples calls).length : ℚ))
        = m.resourceUtilization * (m.utilizationDatapoints : ℚ)
          + (utilSamples calls).sum := by
  induction calls with
  | nil =>
    intro m
    refine ⟨by simp [runRecords, utilSamples], fun _ => rfl, ?_⟩
    simp [runRecords, utilSamples]
  | cons call rest ih =>
    intro m
    obtain ⟨c, node, latency, success⟩ := call
    have hrun : runRecords m ((c, node, latency, success) :: rest)
        = runRecords (m.RecordSchedulingEvent c node latency success) rest := by
      simp [runRecords]
    have hrec := record_util_fields m c node latency success
    have hih := ih (m.RecordSchedulingEvent c node latency success)
    cases node with
    | none =>
      have hs : utilSamples ((c, none, latency, success) :: rest)
          = utilSamples rest := by
        simp [utilSamples]
      rw [hrun, hs]
      simp only at hrec
      refine ⟨?_, ?_, ?_⟩
      · rw [hih.1, hrec.1]
      · intro h0
        rw [hih.2.1 h0, hrec.2]
      · rw [hrec.1, hrec.2] at hih
        exact hih.2.2
    | some n =>
      have hs : utilSamples ((c, some n, latency, success) :: rest)
          = n.Utilization :: utilSamples rest := by
        simp [utilSamples]
      rw [hrun, hs]
      simp only at hrec
      have hpos : ((m.utilizationDatapoints : ℚ) + 1) ≠ 0 := by
        positivity
      refine ⟨?_, ?_, ?_⟩
      · rw [hih.1, hrec.1]
        simp only [List.length_cons]
        omega
      · intro h0
        simp at h0
      · rw [hrec.1, hrec.2] at hih
        have h2 := hih.2.2
        have hcancel : (m.resourceUtilization * (m.utilizationDatapoints : ℚ)
            + n.Utilization) / ((m.utilizationDatapoints : ℚ) + 1)
            * ((m.utilizationDatapoints : ℚ) + 1)
            = m.resourceUtilization * (m.utilizationDatapoints : ℚ)
              + n.Utilization := div_mul_cancel₀ _ hpos
        simp only [List.length_cons] at *
        push_cast at *
        calc (runRecords (m.RecordSchedulingEvent c (some n) latency success)
              rest).resourceUtilization
            * ((m.utilizationDatapoints : ℚ) + ((utilSamples rest).length + 1))
            = (runRecords (m.RecordSchedulingEvent c (some n) latency success)
              rest).resourceUtilization
            * (((m.utilizationDatapoints : ℚ) + 1) + (utilSamples rest).length) := by
              ring
          _ = (m.resourceUtilization * (m.utilizationDatapoints : ℚ)
              + n.Utilization) / ((m.utilizationDatapoints : ℚ) + 1)
              * ((m.utilizationDatapoints : ℚ) + 1) + (utilSamples rest).sum := by
              rw [← h2]
              try push_cast
              try ring
          _ = m.resourceUtilization * (m.utilizationDatapoints : ℚ)
              + (n.Utilization + (utilSamples rest).sum) := by
              rw [hcancel]; ring

/-- C8: after any sequence of record calls the running utilization mean
returned by `GetResults` equals the batch arithmetic mean of the
utilization values sampled at the calls where a node was present, and is
0 when there was no such call. -/
theorem metrics_running_mean_is_batch_mean (calls : List RecordCall) :
    ((runRecords NewCollector calls).GetResults).ResourceUtilization
      = if (utilSamples calls).length = 0 then 0
        else (utilSamples calls).sum / ((utilSamples calls).length : ℚ) := by
  have h := runRecords_mean calls NewCollector
  by_cases h0 : (utilSamples calls).length = 0
  · rw [if_pos h0]
    have h1 := h.2.1 h0
    show (runRecords NewCollector calls).resourceUtilization = 0
    rw [h1]
    rfl
  · rw [if_neg h0]
    have h2 := h.2.2
    have hlen : ((utilSamples calls).length : ℚ) ≠ 0 := by
      exact_mod_cast h0
    show (runRecords NewCollector calls).resourceUtilization = _
    rw [eq_div_iff hlen]
    calc (runRecords NewCollector calls).resourceUtilization
          * ((utilSamples calls).length : ℚ)
        = (runRecords NewCollector calls).resourceUtilization
          * ((0 : ℚ) + ((utilSamples calls).length : ℚ)) := by ring
      _ = 0 * (0 : ℚ) + (utilSamples calls).sum := h2
      _ = (utilSamples calls).sum := by ring

/-- Zero/empty container used as the (unreachable) out-of-range default of
indexed access. -/
def defaultContainer : Container :=
  { id := "", name := "", image := "", cpuRequest := 0, memoryRequest := 0,
    networkRequest := 0, ioRequest := 0, containerType := "", priority := 0 }

/-- One node's pass of `removeRandomContainers` (benchmark.go lines
167-188): `i` counts loop iterations, the loop condition
`i < len(containers)/10+1` is re-evaluated against the node's current
container list, each iteration removes the container at a pseudo-random
index (`rnd i` interprets the `time.Now().Nanosecond()` read at iteration
`i`) and the attempt count is returned.  `fuel` only bounds the recursion
and is chosen large enough to never run out. -/
def reaperNodeLoop (rnd : ℕ → ℕ) : ℕ → ℕ → Node → Node × ℕ
  | 0, _, n => (n, 0)
  | fuel + 1, i, n =>
    if i < n.containers.length / 10 + 1 then
      if n.containers.length = 0 then (n, 0)
      else
        let idx := rnd i % n.containers.length
        let cid := (n.containers.getD idx defaultContainer).id
        let n' := (n.RemoveContainer cid).2
        let next := reaperNodeLoop rnd fuel (i + 1) n'
        (next.1, next.2 + 1)
    else (n, 0)

/-- One reaper tick's work on a single node. -/
def removeRandomContainersNode (rnd : ℕ → ℕ) (n : Node) : Node × ℕ :=
  reaperNodeLoop rnd (n.containers.length + 1) 0 n

/-- The pure attempt-count recurrence of the reaper loop: starting at
iteration `i` with `len` containers, one removal attempt happens whenever
`i < len/10 + 1` and the node is non-empty, after which `i` grows and
`len` shrinks. -/
def reaperAttempts (i len : ℕ) : ℕ :=
  if i < len / 10 + 1 ∧ len ≠ 0 then reaperAttempts (i + 1) (len - 1) + 1
  else 0
termination_by len
decreasing_by omega

lemma reaperAttempts_closed (len : ℕ) :
    ∀ i, reaperAttempts i len
      = if 10 * i ≤ len ∧ len ≠ 0 then (len - 10 * i) / 11 + 1 else 0 := by
  induction len with
  | zero =>
    intro i
    rw [reaperAttempts]
    simp
  | succ m ih =>
    intro i
    rw [reaperAttempts]
    simp only [Nat.add_sub_cancel]
    rw [ih (i + 1)]
    split_ifs <;> omega

lemma removeFirstContainer_isSome (cid : String) (l : List Container)
    (h : ∃ c ∈ l, c.id = cid) : ∃ p, removeFirstContainer cid l = some p := by
  induction l with
  | nil => simp at h
  | cons d ds ih =>
    by_cases hd : d.id = cid
    · exact ⟨(d, ds), by simp [removeFirstContainer, hd]⟩
    · obtain ⟨c, hc, hcid⟩ := h
      rcases List.mem_cons.mp hc with h1 | h1
      · subst h1; exact absurd hcid hd
      · obtain ⟨p, hp⟩ := ih ⟨c, h1, hcid⟩
        exact ⟨(p.1, d :: p.2), by simp [removeFirstContainer, hd, hp]⟩

lemma remove_at_index_length (n : Node) (idx : ℕ)
    (h : idx < n.containers.length) :
    ((n.RemoveContainer (n.containers.getD idx defaultContainer).id).2).containers.length
      + 1 = n.containers.length := by
  have hmem : n.containers.getD idx defaultContainer ∈ n.containers := by
    rw [List.getD_eq_getElem n.containers defaultContainer h]
    exact n.containers.getElem_mem h
  obtain ⟨p, hp⟩ := removeFirstContainer_isSome
    (n.containers.getD idx defaultContainer).id n.containers
    ⟨_, hmem, rfl⟩
  obtain ⟨c, rest⟩ := p
  obtain ⟨_, _, _, hlen⟩ := removeFirstContainer_spec _ _ _ _ hp
  unfold Node.RemoveContainer
  rw [hp]
  exact hlen

lemma reaperNodeLoop_attempts (rnd : ℕ → ℕ) :
    ∀ (fuel i : ℕ) (n : Node), n.containers.length < fuel →
      (reaperNodeLoop rnd fuel i n).2 = reaperAttempts i n.containers.length := by
  intro fuel
  induction fuel with
  | zero => intro i n h; omega
  | succ f ih =>
    intro i n hf
    rw [reaperNodeLoop, reaperAttempts]
    by_cases h1 : i < n.containers.length / 10 + 1
    · by_cases h2 : n.containers.length = 0
      · simp [h1, h2]
      · have hidx : rnd i % n.containers.length < n.containers.length :=
          Nat.mod_lt _ (Nat.pos_of_ne_zero h2)
        have hlen' := remove_at_index_length n (rnd i % n.containers.length) hidx
        simp only [if_pos h1, if_neg h2, if_pos (And.intro h1 h2)]
        rw [ih (i + 1) _ (by omega)]
        have hlen2 : ((n.RemoveContainer ((n.containers.getD
            (rnd i % n.containers.length) defaultContainer).id)).2).containers.length
            = n.containers.length - 1 := by omega
        rw [hlen2]
    · have : ¬ (i < n.containers.length / 10 + 1 ∧ n.containers.length ≠ 0) :=
        fun hc => h1 hc.1
      simp [h1, this]

/-- The exact per-node attempt count of one reaper tick, for every node
and every source of random indices: `floor(count/11) + 1` attempts for a
node holding `count ≥ 1` containers, none for an empty node.  (The loop
bound `len/10 + 1` is re-evaluated against the shrinking container list,
which turns the 10 into an 11.) -/
lemma reaper_attempts_formula (rnd : ℕ → ℕ) (n : Node) :
    (removeRandomContainersNode rnd n).2
      = if n.containers.length = 0 then 0
        else n.containers.length / 11 + 1 := by
  unfold removeRandomContainersNode
  rw [reaperNodeLoop_attempts rnd _ 0 n (by omega), reaperAttempts_closed]
  split_ifs <;> omega

/-- C7 (amended): one reaper tick makes exactly `floor(count/11) + 1`
removal attempts against a node that starts its pass with `count ≥ 1`
placed containers, and none against an empty node; the loop condition
`i < len(containers)/10+1` is re-evaluated against the shrinking list,
so the effective divisor is 11, not 10. -/
theorem reaper_removal_attempts_per_tick (rnd : ℕ → ℕ) (n : Node) :
    (removeRandomContainersNode rnd n).2
      = if n.containers.length = 0 then 0
        else n.containers.length / 11 + 1 :=
  reaper_attempts_formula rnd n

/-- A trivial fixture container carrying only an id. -/
def mkFixContainer (s : String) : Container :=
  { id := s, name := s, image := "img", cpuRequest := 0, memoryRequest := 0,
    networkRequest := 0, ioRequest := 0, containerType := "web",
    priority := 0 }

/-- A node holding ten placed containers. -/
def nFixTen : Node :=
  { id := "n-ten", name := "ten", totalCPU := 1, totalMemory := 1,
    totalNetwork := 1, totalIo := 1, usedCPU := 0, usedMemory := 0,
    usedNetwork := 0, usedIo := 0,
    containers := ["k0", "k1", "k2", "k3", "k4", "k5", "k6", "k7", "k8",
      "k9"].map mkFixContainer,
    loadHistory := [], healthScore := 1 }

/-- C7 counterexample: a node starting its pass with 10 placed containers
receives exactly 1 removal attempt (and does not become empty), not the
`floor(10/10) + 1 = 2` attempts the claim predicts. -/
theorem reaper_removal_attempts_counterexample :
    nFixTen.containers.length = 10
    ∧ (removeRandomContainersNode (fun _ => 0) nFixTen).2 = 1
    ∧ (removeRandomContainersNode (fun _ => 0) nFixTen).2
        ≠ nFixTen.containers.length / 10 + 1 := by
  have hlen : nFixTen.containers.length = 10 := rfl
  refine ⟨hlen, ?_, ?_⟩
  · rw [reaper_attempts_formula, hlen]
    norm_num
  · rw [reaper_attempts_formula, hlen]
    norm_num

/-- `pkg/workLoad` `ContainerTemplate` (workload.go line 19); the Go field
`Type` is spelled `containerType`. -/
structure ContainerTemplate where
  name : String
  image : String
  cpuMin : ℚ
  cpuMax : ℚ
  memoryMin : ℚ
  memoryMax : ℚ
  networkMin : ℚ
  networkMax : ℚ
  ioMin : ℚ
  ioMax : ℚ
  containerType : String
  priority : Int
  weight : Int
deriving DecidableEq, Repr

/-- `FileWorkloadGenerator` (workload.go line 39). -/
structure FileWorkloadGenerator where
  templates : List ContainerTemplate
  weights : List Int
  totalWeight : Int
  count : ℕ
  maxCount : ℕ
deriving DecidableEq, Repr

/-- `NewWorkloadFromFile` (workload.go line 48) after its external file
read and JSON decode succeed: the weights are collected, their total is
summed with no positivity check, the count starts at 0 and the default
cap is 10000. -/
def NewWorkloadFromTemplates (templates : List ContainerTemplate) :
    FileWorkloadGenerator where
  templates := templates
  weights := templates.map (fun t => t.weight)
  totalWeight := (templates.map (fun t => t.weight)).sum
  count := 0
  maxCount := 10000

/-- `FileWorkloadGenerator.HasNext` (workload.go line 84). -/
def FileWorkloadGenerator.HasNext (g : FileWorkloadGenerator) : Bool :=
  decide (g.count < g.maxCount)

/-- The template-selection loop of `NextContainer` (workload.go lines
96-104): subtract each weight from `r` and stop at the first index where
`r` goes negative; if the loop never breaks the index stays 0. -/
def selectTemplateIndex : Int → ℕ → List Int → ℕ
  | _, _, [] => 0
  | r, i, w :: ws =>
    if r - w < 0 then i else selectTemplateIndex (r - w) (i + 1) ws

/-- The all-empty template used as the (unreachable) out-of-range default
of indexed access. -/
def defaultTemplate : ContainerTemplate :=
  { name := "", image := "", cpuMin := 0, cpuMax := 0, memoryMin := 0,
    memoryMax := 0, networkMin := 0, networkMax := 0, ioMin := 0,
    ioMax := 0, containerType := "", priority := 0, weight := 0 }

/-- `NewContainer` (container.go line 22); the id, generated from the
nanosecond clock in Go, is an explicit parameter. -/
def NewContainer (cid containerName image : String)
    (cpuReq memReq netReq ioReq : ℚ) (containerType : String)
    (priority : Int) : Container where
  id := cid
  name := containerName
  image := image
  cpuRequest := cpuReq
  memoryRequest := memReq
  networkRequest := netReq
  ioRequest := ioReq
  containerType := containerType
  priority := priority

/-- `FileWorkloadGenerator.NextContainer` (workload.go line 88).  The
pseudo-random draws are explicit parameters: `r` feeds `rand.Intn`
(reduced modulo the total weight when that weight is positive) and
`f1`-`f4` interpret the four `rand.Float64()` draws in [0, 1).  Go's
`rand.Intn` panics when its bound is not positive; that panic is the
`Except.error` result. -/
def FileWorkloadGenerator.NextContainer (g : FileWorkloadGenerator)
    (cid : String) (r : ℕ) (f1 f2 f3 f4 : ℚ) :
    Except String (Option Container × FileWorkloadGenerator) :=
  if ¬ g.HasNext then Except.ok (none, g)
  else
    let g1 := { g with count := g.count + 1 }
    if g.totalWeight ≤ 0 then
      Except.error "rand.Intn: invalid argument to Intn"
    else
      let rv : Int := (r : Int) % g.totalWeight
      let templateIndex := selectTemplateIndex rv 0 g1.weights
      let template := g1.templates.getD templateIndex defaultTemplate
      let cpu := template.cpuMin + f1 * (template.cpuMax - template.cpuMin)
      let memory := template.memoryMin
        + f2 * (template.memoryMax - template.memoryMin)
      let network := template.networkMin
        + f3 * (template.networkMax - template.networkMin)
      let ioOps := template.ioMin + f4 * (template.ioMax - template.ioMin)
      Except.ok (some (NewContainer cid template.name template.image cpu
        memory network ioOps template.containerType template.priority), g1)

/-- A template whose selection weight is 0. -/
def tFixZeroWeight : ContainerTemplate :=
  { name := "web-template", image := "nginx", cpuMin := 0, cpuMax := 1,
    memoryMin := 0, memoryMax := 1024, networkMin := 0, networkMax := 100,
    ioMin := 0, ioMax := 1000, containerType := "web", priority := 0,
    weight := 0 }

/-- C10: for a workload built from an empty template list, or from
templates whose weights sum to 0, `HasNext` still returns true but
`NextContainer` hits the `rand.Intn` panic branch (its total weight is
not positive), for every random draw. -/
theorem workload_nonpositive_weight_panics :
    ((NewWorkloadFromTemplates []).HasNext = true
      ∧ ∀ (cid : String) (r : ℕ) (f1 f2 f3 f4 : ℚ),
        (NewWorkloadFromTemplates []).NextContainer cid r f1 f2 f3 f4
          = Except.error "rand.Intn: invalid argument to Intn")
    ∧ ((NewWorkloadFromTemplates [tFixZeroWeight, tFixZeroWeight]).HasNext
          = true
      ∧ ∀ (cid : String) (r : ℕ) (f1 f2 f3 f4 : ℚ),
        (NewWorkloadFromTemplates
            [tFixZeroWeight, tFixZeroWeight]).NextContainer cid r f1 f2 f3 f4
          = Except.error "rand.Intn: invalid argument to Intn") := by
  refine ⟨⟨rfl, ?_⟩, ⟨rfl, ?_⟩⟩ <;>
    intro cid r f1 f2 f3 f4 <;> rfl
